import Mathlib

/-!
Verification development for the data-mesh workflows of the
aws-analytics-reference-architecture repository.

The source defines AWS Step Functions state machines as CDK constructs:

* `DataDomainWorkflow` (src/core/src/data-mesh/data-domain-workflow.ts,
  construct `DataDomainWorkflow`): the Domain Intake workflow that lists
  RAM share invitations, accepts the pending invitation originating from
  the central account, and creates Glue resource links for every shared
  table.
* `CentralGovernance` (same file, construct `CentralGovernance`): the
  Governance workflow registering a data product, creating catalog
  entries and emitting the completion event.
* `DataDomainCrawler` (src/core/src/data-mesh/data-domain-crawler.ts) and
  `DataProduct` (src/core/src/data-mesh/data-product.ts): the Metadata
  Refresh workflow with its crawl-job poll loop.
* `DataDomainRegistration` (registration construct): the Registration
  Handshake producing a cross-account event-bus policy statement.

Each state machine is embedded shallowly: the external services
(RAM, Glue, Lake Formation, EventBridge) are parameters, the state
machine is a Lean function producing the list of service calls made on a
run together with whether the execution reaches its successful terminal
state.
-/

namespace DataMesh

/-- Result of an external catalog / permission creation call, matched by
error kind as in the Step Functions `addCatch` clauses: success,
an `AlreadyExistsException`, or any other error. -/
inductive CallResult
  | ok
  | alreadyExists
  | otherError
deriving DecidableEq

/-! ## Domain Intake workflow (`DataDomainWorkflow` construct)

The state machine `CrossAccStateMachine`:
`getRamInvitations` → Choice `resourceShareInvitationsEmpty`
→ Map `forEachRamInvitation` (per invitation: Choice `isInvitationPending`
→ `acceptRamShare` or `notPendingPass` returning `{}`)
→ Choice `shareAccepted` over the filtered map result
→ Map `forEachTable` (per table: `createResourceLink`) → `finishWorkflow`.
-/

/-- A RAM resource-share invitation as read by `getResourceShareInvitations`:
the fields the workflow inspects (`ResourceShareInvitationArn`,
`SenderAccountId`, `Status`). -/
structure RamInvitation where
  arn : String
  senderAccountId : String
  status : String
deriving DecidableEq

/-- The triggering EventBridge event as consumed by the intake state
machine: the envelope `account` field and the `detail` payload
(`database_name`, `table_names`). -/
structure IntakeEvent where
  account : String
  database_name : String
  table_names : List String
deriving DecidableEq

/-- Condition of the `isInvitationPending` Choice state:
`$.ram_share.SenderAccountId == $.central_account_id` and
`$.ram_share.Status == 'PENDING'`. -/
def isInvitationPending (centralAccountId : String) (inv : RamInvitation) : Bool :=
  inv.senderAccountId == centralAccountId && inv.status == "PENDING"

/-- Per-item context built by the `forEachRamInvitation` Map parameters:
`ram_share` is the item, `central_account_id` is `$.account`,
`central_database_name` is `States.Format` of account and database name,
and `database_name` / `table_names` are copied from the event detail. -/
structure RamCtx where
  ram_share : RamInvitation
  central_account_id : String
  central_database_name : String
  database_name : String
  table_names : List String
deriving DecidableEq

/-- Builds the `forEachRamInvitation` iteration context from the
triggering event and the current invitation item. -/
def mkRamCtx (ev : IntakeEvent) (inv : RamInvitation) : RamCtx :=
  ⟨inv, ev.account, ev.account ++ "_" ++ ev.database_name, ev.database_name, ev.table_names⟩

/-- Output of one `forEachRamInvitation` branch: either the empty object
produced by `notPendingPass`, or the full context augmented with
`$.Response.Status` produced after `acceptRamShare`. -/
inductive RamBranchResult
  | emptyObj
  | accepted (ctx : RamCtx) (respStatus : String)
deriving DecidableEq

/-- One branch of the `forEachRamInvitation` Map: the `isInvitationPending`
Choice either runs `acceptRamShare` (whose `resultSelector` stores the
returned invitation status at `$.Response.Status`) or `notPendingPass`
(replacing the whole state by `{}`). `accept` models the external
`acceptResourceShareInvitation` call, returning the resulting status for
a given invitation ARN. -/
def ramBranch (accept : String → String) (ev : IntakeEvent) (inv : RamInvitation) :
    RamBranchResult :=
  if isInvitationPending ev.account inv then
    RamBranchResult.accepted (mkRamCtx ev inv) (accept inv.arn)
  else RamBranchResult.emptyObj

/-- Raw result array of the `forEachRamInvitation` Map, one entry per
listed invitation, in item order. -/
def ramMapResults (accept : String → String) (ev : IntakeEvent)
    (invs : List RamInvitation) : List RamBranchResult :=
  invs.map (ramBranch accept ev)

/-- The JSONPath filter `[?(@.central_account_id)]` of the Map's
`outputPath`: keeps the entries carrying a `central_account_id` field,
i.e. exactly the accepted-branch outputs (`notPendingPass` yields `{}`). -/
def hasCentralAccountId : RamBranchResult → Bool
  | RamBranchResult.emptyObj => false
  | RamBranchResult.accepted _ _ => true

/-- Input of the `shareAccepted` Choice: the Map result filtered by
`[?(@.central_account_id)]`. -/
def shareAcceptedInput (accept : String → String) (ev : IntakeEvent)
    (invs : List RamInvitation) : List RamBranchResult :=
  (ramMapResults accept ev invs).filter hasCentralAccountId

/-- The `shareAccepted` Choice condition: `$[0]` is present and
`$[0].Response.Status == 'ACCEPTED'`. -/
def shareAcceptedPasses (accept : String → String) (ev : IntakeEvent)
    (invs : List RamInvitation) : Bool :=
  match shareAcceptedInput accept ev invs with
  | RamBranchResult.accepted _ s :: _ => s == "ACCEPTED"
  | _ => false

/-- Service calls observable on a run of the intake state machine.
`createResourceLink` is the Glue `createTable` call with
`DatabaseName`, `TableInput.Name` and the `TargetTable` triple
(`CatalogId`, `DatabaseName`, `Name`). -/
inductive IntakeCall
  | getInvitations
  | acceptInvitation (arn : String)
  | createResourceLink (databaseName tableName : String)
      (targetCatalogId targetDatabaseName targetName : String)
deriving DecidableEq

/-- The `acceptRamShare` calls issued inside the `forEachRamInvitation`
Map, one per invitation satisfying the `isInvitationPending` condition,
in item order. -/
def intakeAcceptCalls (ev : IntakeEvent) (invs : List RamInvitation) : List IntakeCall :=
  (invs.filter (isInvitationPending ev.account)).map
    (fun inv => IntakeCall.acceptInvitation inv.arn)

/-- The `createResourceLink` calls issued by the `forEachTable` Map when
the `shareAccepted` Choice (with `outputPath` `$[0]`) takes its positive
branch: one Glue `createTable` per name in `$.table_names`, named
`rl-` ++ table name, targeting catalog `props.centralAccId`,
database `$.central_database_name`, table name. -/
def intakeLinkCalls (centralAccId : String) (accept : String → String)
    (ev : IntakeEvent) (invs : List RamInvitation) : List IntakeCall :=
  match shareAcceptedInput accept ev invs with
  | RamBranchResult.accepted ctx s :: _ =>
      if s == "ACCEPTED" then
        ctx.table_names.map (fun t =>
          IntakeCall.createResourceLink ctx.database_name ("rl-" ++ t)
            centralAccId ctx.central_database_name t)
      else []
  | _ => []

/-- Full call trace of one intake execution: `getRamInvitations`, then —
unless the `resourceShareInvitationsEmpty` Choice finds the invitation
list empty — the accept calls of the invitation fan-out followed by the
resource-link creations gated by `shareAccepted`. -/
def intakeCalls (centralAccId : String) (accept : String → String)
    (ev : IntakeEvent) (invs : List RamInvitation) : List IntakeCall :=
  IntakeCall.getInvitations ::
    (if invs.isEmpty then []
     else intakeAcceptCalls ev invs ++ intakeLinkCalls centralAccId accept ev invs)

/-- Whether the execution reaches the `finishWorkflow` terminal state.
`createResourceLink` has no `addCatch`, so any non-`ok` result of a link
creation (including `AlreadyExistsException`) fails the execution;
the other calls in the reachable trace are assumed to succeed. -/
def intakeSucceeds (centralAccId : String) (accept : String → String)
    (ev : IntakeEvent) (invs : List RamInvitation)
    (linkRes : String → String → CallResult) : Bool :=
  (intakeCalls centralAccId accept ev invs).all (fun c =>
    match c with
    | IntakeCall.createResourceLink db nm _ _ _ => linkRes db nm == CallResult.ok
    | _ => true)

/-! ## Governance workflow (`CentralGovernance` construct)

The state machine `RegisterDataProduct`:
`registerS3Location` (catch `LakeFormation.AlreadyExistsException` →
`grantLfAdminAccess`) → `grantLfAdminAccess` → `grantProducerAccess` →
`createDatabase` (catch `Glue.AlreadyExistsException` → `forEachTable`)
→ `updateDatabaseOwnerMetadata` → Map `forEachTable` (per table:
`createTable` → `grantTablePermissionsToProducer`, no catch on
`createTable`) → `triggerCreateResourceLinks`.
-/

/-- A table entry of the governance input's `tables` array; the state
machine reads its `name` field (`$.tables.name`). -/
structure GovTable where
  name : String
deriving DecidableEq

/-- Input of the `RegisterDataProduct` state machine: producer account
id, requested database name, S3 location, owner metadata and the table
list. -/
structure GovEvent where
  producer_acc_id : String
  database_name : String
  data_product_s3 : String
  product_owner_name : String
  product_pii_flag : String
  tables : List GovTable
deriving DecidableEq

/-- The composed catalog database name
`States.Format('{}_{}', $.producer_acc_id, $.database_name)` used by
`createDatabase`, `createTable`, `grantTablePermissionsToProducer` and
`updateDatabaseOwnerMetadata`. -/
def govDatabaseName (ev : GovEvent) : String :=
  ev.producer_acc_id ++ "_" ++ ev.database_name

/-- The S3 resource ARN `States.Format('arn:aws:s3:::{}', $.data_product_s3)`
used by `registerS3Location` and the location grants. -/
def s3Arn (ev : GovEvent) : String :=
  "arn:aws:s3:::" ++ ev.data_product_s3

/-- Service calls observable on a run of the governance state machine.
`enterForEachTable` marks entry into the `forEachTable` Map state. -/
inductive GovCall
  | registerLocation (resourceArn : String)
  | grantLfAdmin (resourceArn : String)
  | grantProducer (principal resourceArn : String)
  | createDatabase (name : String)
  | updateOwnerMetadata (name owner ownerName piiFlag : String)
  | enterForEachTable
  | createTable (databaseName tableName : String)
  | grantTablePerms (databaseName tableName principal : String)
  | putEvent (detailType databaseName : String) (tableNames : List String)
deriving DecidableEq

/-- Result array of a Step Functions Map state assembled from branch
completions: the branches may complete in any order (`order` lists the
item indices in completion order), but each completion writes its output
at its own item index, so the array is indexed by item position. -/
def assembleFanOut (outputs : List String) (order : List Nat) : List (Option String) :=
  order.foldl (fun arr i => arr.set i (some (outputs.getD i "")))
    (List.replicate outputs.length none)

/-- The flattened table-name list `$.map_result.flatten` put into the
outbound event: the `forEachTable` Map result (each branch's
`outputPath` is `$.tables.name`) flattened by the `resultSelector`
`$[*]`. -/
def govFlattenedNames (ev : GovEvent) (order : List Nat) : List String :=
  (assembleFanOut (ev.tables.map GovTable.name) order).filterMap id

/-- Calls of the `forEachTable` Map and the subsequent
`triggerCreateResourceLinks` step: per table a `createTable` (no catch:
a non-`ok` result fails the branch before its `grantTablePermissions`),
and, when every branch succeeds, the outbound EventBridge event with
detail type `{}_createResourceLinks` of the producer account id and
detail `database_name` / `table_names`. -/
def govFanOutTrace (ev : GovEvent) (tblRes : String → CallResult)
    (order : List Nat) : List GovCall :=
  GovCall.enterForEachTable ::
    ((ev.tables.flatMap (fun t =>
      GovCall.createTable (govDatabaseName ev) t.name ::
        (if tblRes t.name = CallResult.ok then
          [GovCall.grantTablePerms (govDatabaseName ev) t.name ev.producer_acc_id]
        else []))) ++
    (if ev.tables.all (fun t => tblRes t.name == CallResult.ok) then
      [GovCall.putEvent (ev.producer_acc_id ++ "_createResourceLinks")
        ev.database_name (govFlattenedNames ev order)]
    else []))

/-- Full call trace of a governance execution. `regRes` is the result of
`registerS3Location` (its catch recovers `alreadyExists` to
`grantLfAdminAccess`, the same successor as on success), `dbRes` the
result of `createDatabase` (its catch recovers `alreadyExists` directly
to the `forEachTable` Map, skipping `updateDatabaseOwnerMetadata`),
`tblRes` the per-table result of `createTable`; the permission grants
and the event put are assumed to succeed. -/
def govTrace (ev : GovEvent) (regRes dbRes : CallResult)
    (tblRes : String → CallResult) (order : List Nat) : List GovCall :=
  GovCall.registerLocation (s3Arn ev) ::
    (if regRes = CallResult.otherError then []
     else GovCall.grantLfAdmin (s3Arn ev) ::
       GovCall.grantProducer ev.producer_acc_id (s3Arn ev) ::
       GovCall.createDatabase (govDatabaseName ev) ::
         (match dbRes with
          | CallResult.otherError => []
          | CallResult.ok =>
              GovCall.updateOwnerMetadata (govDatabaseName ev) ev.producer_acc_id
                  ev.product_owner_name ev.product_pii_flag ::
                govFanOutTrace ev tblRes order
          | CallResult.alreadyExists => govFanOutTrace ev tblRes order))

/-- Whether a governance execution reaches its terminal state
successfully: `registerS3Location` and `createDatabase` tolerate
`alreadyExists` through their catches, while any uncaught error —
in particular any non-`ok` `createTable` result, `alreadyExists`
included — fails the fan-out and the execution. -/
def govSucceeds (ev : GovEvent) (regRes dbRes : CallResult)
    (tblRes : String → CallResult) : Bool :=
  regRes != CallResult.otherError && dbRes != CallResult.otherError
    && ev.tables.all (fun t => tblRes t.name == CallResult.ok)

/-! ## Metadata Refresh workflow crawl-job poll loop

Per-table branch of the `TraverseTableArray` Map in `DataDomainCrawler`
and `DataProduct`: `GrantPermissions` → `CreateCrawlerForTable` →
`StartCrawler` → `WaitForCrawler` → `GetCrawler` →
`CheckCrawlerStatusChoice` → `DeleteCrawler` or back to `WaitForCrawler`.
-/

/-- Service calls of one `TraverseTableArray` branch. -/
inductive CrawlCall
  | grantPermissions
  | createCrawler
  | startCrawler
  | getCrawler
  | deleteCrawler
deriving DecidableEq

/-- Terminal condition of `CheckCrawlerStatusChoice` in
`DataDomainCrawler`: `$.crawlerInfo.Crawler.State == 'READY'`. -/
def crawlerReadyEq (s : String) : Bool := s == "READY"

/-- Terminal condition of `CheckCrawlerStatusChoice` in `DataProduct`:
`not ($.crawlerInfo.Crawler.State == 'RUNNING')`. -/
def crawlerReadyNotRunning (s : String) : Bool := !(s == "RUNNING")

/-- The `WaitForCrawler` / `GetCrawler` / `CheckCrawlerStatusChoice`
loop: `states k` is the crawler state reported by the k-th `GetCrawler`
call; each iteration polls once and either deletes the crawler
(terminal condition holds) or loops. `fuel` bounds the unrolling —
the source loop itself has no bound, so a run needing more polls than
`fuel` is reported as `none` (still looping). -/
def crawlPollCalls (ready : String → Bool) (states : Nat → String) :
    Nat → Nat → Option (List CrawlCall)
  | 0, _ => none
  | fuel + 1, k =>
      if ready (states k) then some [CrawlCall.getCrawler, CrawlCall.deleteCrawler]
      else (crawlPollCalls ready states fuel (k + 1)).map
        (fun rest => CrawlCall.getCrawler :: rest)

/-- Full call list of one `TraverseTableArray` branch (when the poll
loop terminates within `fuel` iterations). -/
def crawlBranchCalls (ready : String → Bool) (states : Nat → String)
    (fuel : Nat) : Option (List CrawlCall) :=
  (crawlPollCalls ready states fuel 0).map
    (fun poll => CrawlCall.grantPermissions :: CrawlCall.createCrawler ::
      CrawlCall.startCrawler :: poll)

/-- Number of `GetCrawler` and `DeleteCrawler` calls of a branch run. -/
def crawlCounts (o : Option (List CrawlCall)) : Option (Nat × Nat) :=
  o.map (fun l => (l.count CrawlCall.getCrawler, l.count CrawlCall.deleteCrawler))

/-! ## Registration Handshake (`DataDomainRegistration` construct)

The construct creates a `CfnEventBusPolicy` on the central event bus
with statement id `AllowDataDomainAccToPutEvents_` ++ the data domain
account id, action `events:PutEvents` and the data domain account id as
principal (plus a forwarding rule, not needed for the idempotence
claim).
-/

/-- An event-bus policy statement as declared by the registration
construct's `CfnEventBusPolicy`. -/
structure BusPolicyStatement where
  eventBusName : String
  statementId : String
  action : String
  principal : String
deriving DecidableEq

/-- The policy statement declared by `DataDomainRegistration` for a
(central domain, data domain) pair: bus name defaults to the central
account's `_centralEventBus`, statement id
`AllowDataDomainAccToPutEvents_` ++ data domain account id. -/
def registrationStatement (eventBusNameOpt : Option String)
    (centralAccId dataDomainAccId : String) : BusPolicyStatement :=
  ⟨eventBusNameOpt.getD (centralAccId ++ "_centralEventBus"),
   "AllowDataDomainAccToPutEvents_" ++ dataDomainAccId,
   "events:PutEvents",
   dataDomainAccId⟩

/-- Key match of two policy statements: same event bus and same
statement id. -/
def sameStatementKey (p q : BusPolicyStatement) : Bool :=
  q.eventBusName == p.eventBusName && q.statementId == p.statementId

/-- Modelled from the spec: the deployment of a declared
`CfnEventBusPolicy` into the external event-bus permission store is not
part of this repository; per the spec, re-running the registration for
the same domain pair "updates rather than duplicates the permission
entry", i.e. the store upserts keyed by (event bus name, statement id):
an existing statement with the same key is replaced, otherwise the
statement is appended. -/
def applyStatement (store : List BusPolicyStatement)
    (p : BusPolicyStatement) : List BusPolicyStatement :=
  if store.any (sameStatementKey p) then
    store.map (fun q => if sameStatementKey p q then p else q)
  else store ++ [p]

/-! ## Theorems -/

/-- C4: in the Metadata Refresh Workflow's per-table branch — under both
`CheckCrawlerStatusChoice` conditions found in the source
(`State == 'READY'` in `DataDomainCrawler`, `not (State == 'RUNNING')`
in `DataProduct`) — a crawl job reporting `RUNNING` on the first two
polls and `READY` on the third is polled exactly three times and deleted
exactly once, and a job reporting `READY` immediately is polled once and
deleted once. -/
theorem metadata_refresh_poll_counts (s1 s2 : Nat → String) (fuel : Nat)
    (h0 : s1 0 = "RUNNING") (h1 : s1 1 = "RUNNING") (h2 : s1 2 = "READY")
    (g0 : s2 0 = "READY") :
    crawlCounts (crawlBranchCalls crawlerReadyEq s1 (fuel + 3)) = some (3, 1)
  ∧ crawlCounts (crawlBranchCalls crawlerReadyNotRunning s1 (fuel + 3)) = some (3, 1)
  ∧ crawlCounts (crawlBranchCalls crawlerReadyEq s2 (fuel + 1)) = some (1, 1)
  ∧ crawlCounts (crawlBranchCalls crawlerReadyNotRunning s2 (fuel + 1)) = some (1, 1) := by
  have e3 : fuel + 3 = (fuel + 2) + 1 := rfl
  have e2 : fuel + 2 = (fuel + 1) + 1 := rfl
  refine ⟨?_, ?_, ?_, ?_⟩ <;>
    simp [crawlBranchCalls, crawlCounts, e3, e2, crawlPollCalls,
      crawlerReadyEq, crawlerReadyNotRunning, h0, h1, h2, g0,
      List.count_cons]

/-- Crawler state sequence reporting `RUNNING` twice then `READY`. -/
def cexCrawlStatesSlow : Nat → String :=
  fun k => if k < 2 then "RUNNING" else "READY"

/-- Crawler state sequence reporting `READY` immediately. -/
def cexCrawlStatesFast : Nat → String := fun _ => "READY"

/-- Witness for C4 at the two concrete state sequences. -/
theorem metadata_refresh_poll_counts_witness :
    crawlCounts (crawlBranchCalls crawlerReadyEq cexCrawlStatesSlow 3) = some (3, 1)
  ∧ crawlCounts (crawlBranchCalls crawlerReadyNotRunning cexCrawlStatesSlow 3) = some (3, 1)
  ∧ crawlCounts (crawlBranchCalls crawlerReadyEq cexCrawlStatesFast 1) = some (1, 1)
  ∧ crawlCounts (crawlBranchCalls crawlerReadyNotRunning cexCrawlStatesFast 1) = some (1, 1) :=
  metadata_refresh_poll_counts cexCrawlStatesSlow cexCrawlStatesFast 0
    rfl rfl rfl rfl

/-- Applying the same policy statement twice to a keyed store is the
same as applying it once. -/
theorem applyStatement_idem (store : List BusPolicyStatement)
    (p : BusPolicyStatement) :
    applyStatement (applyStatement store p) p = applyStatement store p := by
  have hself : sameStatementKey p p = true := by
    simp [sameStatementKey]
  unfold applyStatement
  by_cases h : store.any (sameStatementKey p) = true
  · rw [if_pos h]
    rcases List.any_eq_true.1 h with ⟨q, hq, hqk⟩
    have hmem : p ∈ store.map (fun q => if sameStatementKey p q then p else q) := by
      refine List.mem_map.2 ⟨q, hq, ?_⟩
      simp [hqk]
    have hany : (store.map (fun q => if sameStatementKey p q then p else q)).any
        (sameStatementKey p) = true :=
      List.any_eq_true.2 ⟨p, hmem, hself⟩
    rw [if_pos hany, List.map_map]
    refine List.map_congr_left (fun q _ => ?_)
    by_cases hk : sameStatementKey p q = true
    · simp [Function.comp, hk, hself]
    · simp [Function.comp, hk]
  · rw [if_neg h]
    have hany : (store ++ [p]).any (sameStatementKey p) = true :=
      List.any_eq_true.2 ⟨p, by simp, hself⟩
    rw [if_pos hany, List.map_append]
    have hstore : store.map (fun q => if sameStatementKey p q then p else q) = store := by
      refine List.map_congr_left (fun q hq => ?_) |>.trans store.map_id
      have : sameStatementKey p q = false := by
        by_contra hc
        exact absurd (List.any_eq_true.2 ⟨q, hq, by simpa using hc⟩) h
      simp [this]
    simp [hstore, hself]

/-- C9: the Registration Handshake is idempotent — applying the policy
statement declared by `DataDomainRegistration` for the same
(central domain, data domain) pair twice yields the same permission
configuration as applying it once (the statement id is deterministic in
the data domain account id, so the second application updates the
existing entry), and registering a pair into an empty store creates
exactly one entry. -/
theorem registration_handshake_idempotent (store : List BusPolicyStatement)
    (eventBusNameOpt : Option String) (centralAccId dataDomainAccId : String) :
    applyStatement
        (applyStatement store (registrationStatement eventBusNameOpt centralAccId dataDomainAccId))
        (registrationStatement eventBusNameOpt centralAccId dataDomainAccId)
      = applyStatement store (registrationStatement eventBusNameOpt centralAccId dataDomainAccId)
  ∧ (applyStatement [] (registrationStatement eventBusNameOpt centralAccId dataDomainAccId)).length = 1 := by
  refine ⟨applyStatement_idem store _, ?_⟩
  simp [applyStatement]

/-- Every call of the `forEachTable` fan-out trace is the Map-state
entry, a per-table `createTable` or `grantTablePerms` on the composed
database name, or the outbound event put. -/
theorem govFanOutTrace_mem (ev : GovEvent) (tblRes : String → CallResult)
    (order : List Nat) (c : GovCall) (h : c ∈ govFanOutTrace ev tblRes order) :
    c = GovCall.enterForEachTable
  ∨ (∃ t ∈ ev.tables, c = GovCall.createTable (govDatabaseName ev) t.name)
  ∨ (∃ t ∈ ev.tables, c = GovCall.grantTablePerms (govDatabaseName ev) t.name ev.producer_acc_id)
  ∨ c = GovCall.putEvent (ev.producer_acc_id ++ "_createResourceLinks")
      ev.database_name (govFlattenedNames ev order) := by
  rcases List.mem_cons.1 h with he | h2
  · exact Or.inl he
  rcases List.mem_append.1 h2 with hf | hp
  · rcases List.mem_flatMap.1 hf with ⟨t, ht, hc⟩
    rcases List.mem_cons.1 hc with h3 | h4
    · exact Or.inr (Or.inl ⟨t, ht, h3⟩)
    by_cases hres : tblRes t.name = CallResult.ok
    · rw [if_pos hres] at h4
      simp at h4
      exact Or.inr (Or.inr (Or.inl ⟨t, ht, h4⟩))
    · rw [if_neg hres] at h4
      simp at h4
  · by_cases hall : ev.tables.all (fun t => tblRes t.name == CallResult.ok) = true
    · rw [if_pos hall] at hp
      simp at hp
      exact Or.inr (Or.inr (Or.inr hp))
    · rw [if_neg hall] at hp
      simp at hp

/-- C2: in the Governance Workflow, an `AlreadyExistsException` from
`createDatabase` does not fail the execution and leads directly to the
`forEachTable` fan-out with no `updateDatabaseOwnerMetadata` call
anywhere in the trace, while a successful `createDatabase` leads to the
owner-metadata update followed by the fan-out; the fan-out is entered in
both cases. -/
theorem gov_create_database_already_exists (ev : GovEvent) (regRes : CallResult)
    (tblRes : String → CallResult) (order : List Nat)
    (hreg : regRes ≠ CallResult.otherError)
    (htbl : ev.tables.all (fun t => tblRes t.name == CallResult.ok) = true) :
    (govSucceeds ev regRes CallResult.alreadyExists tblRes = true
      ∧ (∀ n own ownNm pii, GovCall.updateOwnerMetadata n own ownNm pii ∉
          govTrace ev regRes CallResult.alreadyExists tblRes order)
      ∧ GovCall.enterForEachTable ∈ govTrace ev regRes CallResult.alreadyExists tblRes order)
  ∧ (govSucceeds ev regRes CallResult.ok tblRes = true
      ∧ List.Sublist
          [GovCall.updateOwnerMetadata (govDatabaseName ev) ev.producer_acc_id
             ev.product_owner_name ev.product_pii_flag,
           GovCall.enterForEachTable]
          (govTrace ev regRes CallResult.ok tblRes order)) := by
  have hsucc : ∀ dbRes, dbRes ≠ CallResult.otherError →
      govSucceeds ev regRes dbRes tblRes = true := by
    intro dbRes hdb
    simp [govSucceeds, htbl]
    constructor
    · cases regRes <;> simp_all
    · cases dbRes <;> simp_all
  refine ⟨⟨hsucc _ (by simp), ?_, ?_⟩, hsucc _ (by simp), ?_⟩
  · intro n own ownNm pii hmem
    rw [govTrace, if_neg hreg] at hmem
    simp only [List.mem_cons] at hmem
    rcases hmem with h | h | h | h | h
    · exact absurd h (by simp)
    · exact absurd h (by simp)
    · exact absurd h (by simp)
    · exact absurd h (by simp)
    · rcases govFanOutTrace_mem ev tblRes order _ h with h1 | ⟨t, _, h1⟩ | ⟨t, _, h1⟩ | h1 <;>
        simp at h1
  · rw [govTrace, if_neg hreg]
    simp [govFanOutTrace]
  · rw [govTrace, if_neg hreg]
    refine List.Sublist.trans ?_ (List.sublist_cons_self _ _)
    refine List.Sublist.trans ?_ (List.sublist_cons_self _ _)
    refine List.Sublist.trans ?_ (List.sublist_cons_self _ _)
    refine List.Sublist.trans ?_ (List.sublist_cons_self _ _)
    exact List.cons_sublist_cons.2 (List.singleton_sublist.2 (by simp [govFanOutTrace]))

/-- Concrete governance event used by the witnesses. -/
def cexGovEvent : GovEvent :=
  ⟨"555566667777", "retaildb", "retail-bucket", "retail-team", "false", [⟨"t1"⟩, ⟨"t2"⟩]⟩

/-- Witness for C2 at a concrete event with all per-table calls
succeeding. -/
theorem gov_create_database_already_exists_witness :
    (govSucceeds cexGovEvent CallResult.ok CallResult.alreadyExists (fun _ => CallResult.ok) = true
      ∧ (∀ n own ownNm pii, GovCall.updateOwnerMetadata n own ownNm pii ∉
          govTrace cexGovEvent CallResult.ok CallResult.alreadyExists (fun _ => CallResult.ok) [0, 1])
      ∧ GovCall.enterForEachTable ∈
          govTrace cexGovEvent CallResult.ok CallResult.alreadyExists (fun _ => CallResult.ok) [0, 1])
  ∧ (govSucceeds cexGovEvent CallResult.ok CallResult.ok (fun _ => CallResult.ok) = true
      ∧ List.Sublist
          [GovCall.updateOwnerMetadata (govDatabaseName cexGovEvent) cexGovEvent.producer_acc_id
             cexGovEvent.product_owner_name cexGovEvent.product_pii_flag,
           GovCall.enterForEachTable]
          (govTrace cexGovEvent CallResult.ok CallResult.ok (fun _ => CallResult.ok) [0, 1])) :=
  gov_create_database_already_exists cexGovEvent CallResult.ok (fun _ => CallResult.ok) [0, 1]
    (by decide) (by decide)

/-- Every call of a governance trace is one of the six pipeline steps or
a fan-out call. -/
theorem govTrace_mem (ev : GovEvent) (regRes dbRes : CallResult)
    (tblRes : String → CallResult) (order : List Nat) (c : GovCall)
    (h : c ∈ govTrace ev regRes dbRes tblRes order) :
    c = GovCall.registerLocation (s3Arn ev)
  ∨ c = GovCall.grantLfAdmin (s3Arn ev)
  ∨ c = GovCall.grantProducer ev.producer_acc_id (s3Arn ev)
  ∨ c = GovCall.createDatabase (govDatabaseName ev)
  ∨ c = GovCall.updateOwnerMetadata (govDatabaseName ev) ev.producer_acc_id
      ev.product_owner_name ev.product_pii_flag
  ∨ c ∈ govFanOutTrace ev tblRes order := by
  cases dbRes
  all_goals
    rw [govTrace] at h
    by_cases hreg : regRes = CallResult.otherError
    · rw [if_pos hreg] at h
      simp at h
      exact Or.inl h
    · rw [if_neg hreg] at h
      simp only [List.mem_cons] at h
      rcases h with h | h | h | h | h
      · exact Or.inl h
      · exact Or.inr (Or.inl h)
      · exact Or.inr (Or.inr (Or.inl h))
      · exact Or.inr (Or.inr (Or.inr (Or.inl h)))
      · first
        | exact absurd h (List.not_mem_nil c)
        | exact Or.inr (Or.inr (Or.inr (Or.inr (Or.inr h))))
        | (rcases h with h1 | h1
           · exact Or.inr (Or.inr (Or.inr (Or.inr (Or.inl h1))))
           · exact Or.inr (Or.inr (Or.inr (Or.inr (Or.inr h1)))))

/-- C8: the governance workflow creates the catalog database named by
concatenating the recipient data-domain account id (`producer_acc_id`,
the account the completion event is addressed to), an underscore and the
requested database name, and every `createDatabase`, `createTable`,
`grantTablePermissions` and `updateDatabaseOwnerMetadata` call in the
trace uses that same composed name. -/
theorem gov_database_naming (ev : GovEvent) (regRes dbRes : CallResult)
    (tblRes : String → CallResult) (order : List Nat)
    (hreg : regRes ≠ CallResult.otherError) :
    GovCall.createDatabase (govDatabaseName ev) ∈ govTrace ev regRes dbRes tblRes order
  ∧ (∀ n, GovCall.createDatabase n ∈ govTrace ev regRes dbRes tblRes order →
      n = govDatabaseName ev)
  ∧ (∀ d t, GovCall.createTable d t ∈ govTrace ev regRes dbRes tblRes order →
      d = govDatabaseName ev)
  ∧ (∀ d t p, GovCall.grantTablePerms d t p ∈ govTrace ev regRes dbRes tblRes order →
      d = govDatabaseName ev)
  ∧ (∀ n own ownNm pii,
      GovCall.updateOwnerMetadata n own ownNm pii ∈ govTrace ev regRes dbRes tblRes order →
      n = govDatabaseName ev) := by
  refine ⟨?_, ?_, ?_, ?_, ?_⟩
  · cases dbRes <;>
      (rw [govTrace, if_neg hreg]; simp)
  · intro n hmem
    rcases govTrace_mem ev regRes dbRes tblRes order _ hmem with h | h | h | h | h | h
    · simp at h
    · simp at h
    · simp at h
    · simp at h
      exact h
    · simp at h
    · rcases govFanOutTrace_mem ev tblRes order _ h with h1 | ⟨u, _, h1⟩ | ⟨u, _, h1⟩ | h1 <;>
        simp at h1
  · intro d t hmem
    rcases govTrace_mem ev regRes dbRes tblRes order _ hmem with h | h | h | h | h | h
    · simp at h
    · simp at h
    · simp at h
    · simp at h
    · simp at h
    · rcases govFanOutTrace_mem ev tblRes order _ h with h1 | ⟨u, _, h1⟩ | ⟨u, _, h1⟩ | h1
      · simp at h1
      · simp at h1
        exact h1.1
      · simp at h1
      · simp at h1
  · intro d t p hmem
    rcases govTrace_mem ev regRes dbRes tblRes order _ hmem with h | h | h | h | h | h
    · simp at h
    · simp at h
    · simp at h
    · simp at h
    · simp at h
    · rcases govFanOutTrace_mem ev tblRes order _ h with h1 | ⟨u, _, h1⟩ | ⟨u, _, h1⟩ | h1
      · simp at h1
      · simp at h1
      · simp at h1
        exact h1.1
      · simp at h1
  · intro n own ownNm pii hmem
    rcases govTrace_mem ev regRes dbRes tblRes order _ hmem with h | h | h | h | h | h
    · simp at h
    · simp at h
    · simp at h
    · simp at h
    · simp at h
      exact h.1
    · rcases govFanOutTrace_mem ev tblRes order _ h with h1 | ⟨u, _, h1⟩ | ⟨u, _, h1⟩ | h1 <;>
        simp at h1

/-- Witness for C8 at the concrete governance event. -/
theorem gov_database_naming_witness :
    GovCall.createDatabase (govDatabaseName cexGovEvent) ∈
      govTrace cexGovEvent CallResult.ok CallResult.ok (fun _ => CallResult.ok) [0, 1]
  ∧ (∀ n, GovCall.createDatabase n ∈
        govTrace cexGovEvent CallResult.ok CallResult.ok (fun _ => CallResult.ok) [0, 1] →
      n = govDatabaseName cexGovEvent) :=
  ⟨(gov_database_naming cexGovEvent CallResult.ok CallResult.ok (fun _ => CallResult.ok) [0, 1]
      (by decide)).1,
   (gov_database_naming cexGovEvent CallResult.ok CallResult.ok (fun _ => CallResult.ok) [0, 1]
      (by decide)).2.1⟩

/-- A non-matching invitation's branch yields the empty object. -/
theorem ramBranch_not_pending (accept : String → String) (ev : IntakeEvent)
    (inv : RamInvitation) (h : isInvitationPending ev.account inv = false) :
    ramBranch accept ev inv = RamBranchResult.emptyObj := by
  rw [ramBranch]
  simp [h]

/-- Every entry of the invitation fan-out result is either the empty
object or the accepted output of some listed, matching invitation. -/
theorem mem_ramMapResults (accept : String → String) (ev : IntakeEvent)
    (invs : List RamInvitation) (r : RamBranchResult)
    (h : r ∈ ramMapResults accept ev invs) :
    r = RamBranchResult.emptyObj
  ∨ ∃ inv ∈ invs, isInvitationPending ev.account inv = true
      ∧ r = RamBranchResult.accepted (mkRamCtx ev inv) (accept inv.arn) := by
  rcases List.mem_map.1 h with ⟨inv, hinv, hr⟩
  by_cases hp : isInvitationPending ev.account inv = true
  · right
    refine ⟨inv, hinv, hp, ?_⟩
    rw [← hr, ramBranch]
    simp [hp]
  · left
    rw [← hr, ramBranch_not_pending accept ev inv (by simpa using hp)]

/-- If the `shareAccepted` input starts with an accepted entry, that
entry comes from some listed matching invitation, and the invitation
list is nonempty. -/
theorem gate_head_from_invitation (accept : String → String) (ev : IntakeEvent)
    (invs : List RamInvitation) (ctx : RamCtx) (s : String)
    (rest : List RamBranchResult)
    (h : shareAcceptedInput accept ev invs = RamBranchResult.accepted ctx s :: rest) :
    invs ≠ []
  ∧ ∃ inv ∈ invs, ctx = mkRamCtx ev inv ∧ s = accept inv.arn := by
  have hmem : RamBranchResult.accepted ctx s ∈ shareAcceptedInput accept ev invs := by
    rw [h]
    exact List.mem_cons_self _ _
  have hmem2 : RamBranchResult.accepted ctx s ∈ ramMapResults accept ev invs :=
    List.mem_of_mem_filter hmem
  rcases mem_ramMapResults accept ev invs _ hmem2 with h1 | ⟨inv, hinv, _, h1⟩
  · exact absurd h1 (by simp)
  · simp only [RamBranchResult.accepted.injEq] at h1
    refine ⟨?_, inv, hinv, h1.1, h1.2⟩
    intro hnil
    subst hnil
    simp at hinv

/-- C1: whenever the `shareAccepted` gate observes an accepted
invitation whose response status is `ACCEPTED`, the intake workflow
issues exactly one resource-link creation per name in the triggering
event's table list — one per name, none extra, in list order — each
named `rl-` followed by the table name. -/
theorem intake_accepted_creates_all_links (cA : String) (accept : String → String)
    (ev : IntakeEvent) (invs : List RamInvitation)
    (h : shareAcceptedPasses accept ev invs = true) :
    intakeLinkCalls cA accept ev invs
      = ev.table_names.map (fun t =>
          IntakeCall.createResourceLink ev.database_name ("rl-" ++ t) cA
            (ev.account ++ "_" ++ ev.database_name) t) := by
  rw [shareAcceptedPasses] at h
  rw [intakeLinkCalls]
  cases hin : shareAcceptedInput accept ev invs with
  | nil =>
      rw [hin] at h
      simp at h
  | cons r rest =>
      rw [hin] at h
      cases r with
      | emptyObj => simp at h
      | accepted ctx s =>
          rcases gate_head_from_invitation accept ev invs ctx s rest hin with ⟨-, inv, -, hctx, -⟩
          simp only at h
          simp [h, hctx, mkRamCtx]

/-- Triggering event used by the intake witnesses. -/
def cexIntakeEvent : IntakeEvent := ⟨"111122223333", "retaildb", ["t1", "t2"]⟩

/-- A pending invitation sent by the central account of
`cexIntakeEvent`. -/
def cexPendingInv : RamInvitation := ⟨"arn:aws:ram:inv-central", "111122223333", "PENDING"⟩

/-- A pending invitation from an unrelated sender account. -/
def cexOtherInv : RamInvitation := ⟨"arn:aws:ram:inv-other", "999988887777", "PENDING"⟩

/-- Acceptance service answering `ACCEPTED` for every invitation. -/
def cexAccept : String → String := fun _ => "ACCEPTED"

/-- Witness for C1 at the concrete event and a single matching
invitation. -/
theorem intake_accepted_creates_all_links_witness :
    shareAcceptedPasses cexAccept cexIntakeEvent [cexPendingInv] = true
  ∧ intakeLinkCalls "111122223333" cexAccept cexIntakeEvent [cexPendingInv]
      = [IntakeCall.createResourceLink "retaildb" "rl-t1" "111122223333"
           "111122223333_retaildb" "t1",
         IntakeCall.createResourceLink "retaildb" "rl-t2" "111122223333"
           "111122223333_retaildb" "t2"] :=
  ⟨by decide,
   by
    rw [intake_accepted_creates_all_links "111122223333" cexAccept cexIntakeEvent
      [cexPendingInv] (by decide)]
    rfl⟩

/-- C6: with an empty invitation list the intake workflow reaches its
terminal state having made only the `getResourceShareInvitations` call
(no accept, no resource-link creation), and with a list in which no
invitation is both `PENDING` and sent by the triggering central account
it likewise finishes without any accept or link-creation call. -/
theorem intake_no_pending_finishes (cA : String) (accept : String → String)
    (ev : IntakeEvent) (invs : List RamInvitation)
    (linkRes : String → String → CallResult) :
    (invs = [] →
      intakeCalls cA accept ev invs = [IntakeCall.getInvitations]
      ∧ intakeSucceeds cA accept ev invs linkRes = true)
  ∧ ((∀ inv ∈ invs, isInvitationPending ev.account inv = false) →
      intakeCalls cA accept ev invs = [IntakeCall.getInvitations]
      ∧ intakeSucceeds cA accept ev invs linkRes = true) := by
  constructor
  · intro hnil
    subst hnil
    constructor
    · simp [intakeCalls]
    · simp [intakeSucceeds, intakeCalls]
  · intro hnp
    have hacc : intakeAcceptCalls ev invs = [] := by
      rw [intakeAcceptCalls]
      have hfil : invs.filter (isInvitationPending ev.account) = [] := by
        refine List.filter_eq_nil_iff.2 (fun a ha => ?_)
        simp [hnp a ha]
      rw [hfil]
      rfl
    have hgate : shareAcceptedInput accept ev invs = [] := by
      rw [shareAcceptedInput]
      refine List.filter_eq_nil_iff.2 (fun r hr => ?_)
      rcases mem_ramMapResults accept ev invs r hr with h1 | ⟨inv, hinv, hp, -⟩
      · subst h1
        simp [hasCentralAccountId]
      · rw [hnp inv hinv] at hp
        exact absurd hp (by simp)
    have hlink : intakeLinkCalls cA accept ev invs = [] := by
      rw [intakeLinkCalls, hgate]
    have hcalls : intakeCalls cA accept ev invs = [IntakeCall.getInvitations] := by
      rw [intakeCalls, hacc, hlink]
      simp
    exact ⟨hcalls, by simp [intakeSucceeds, hcalls]⟩

/-- Witness for C6 at the empty list and at a list whose only
invitation has a non-matching sender. -/
theorem intake_no_pending_finishes_witness :
    (intakeCalls "111122223333" cexAccept cexIntakeEvent [] = [IntakeCall.getInvitations]
      ∧ intakeSucceeds "111122223333" cexAccept cexIntakeEvent []
          (fun _ _ => CallResult.ok) = true)
  ∧ (intakeCalls "111122223333" cexAccept cexIntakeEvent [cexOtherInv]
        = [IntakeCall.getInvitations]
      ∧ intakeSucceeds "111122223333" cexAccept cexIntakeEvent [cexOtherInv]
          (fun _ _ => CallResult.ok) = true) :=
  ⟨(intake_no_pending_finishes "111122223333" cexAccept cexIntakeEvent []
      (fun _ _ => CallResult.ok)).1 rfl,
   (intake_no_pending_finishes "111122223333" cexAccept cexIntakeEvent [cexOtherInv]
      (fun _ _ => CallResult.ok)).2 (by decide)⟩

/-- C7: every resource link the intake workflow creates targets the
central (producer-side) catalog: under the trigger rule's constraint
that the event's origin account is the configured central account id,
the link's target triple is (the event's origin account as catalog id,
the composed central database name `account_databaseName`, the table
name), with the table name drawn from the event's table list, the link
named `rl-` ++ table name, and the link placed in the event's local
database. -/
theorem intake_links_target_central_catalog (cA : String) (accept : String → String)
    (ev : IntakeEvent) (invs : List RamInvitation)
    (hacct : ev.account = cA)
    (db nm tc td tn : String)
    (hmem : IntakeCall.createResourceLink db nm tc td tn ∈ intakeCalls cA accept ev invs) :
    tn ∈ ev.table_names ∧ tc = ev.account
  ∧ td = ev.account ++ "_" ++ ev.database_name
  ∧ nm = "rl-" ++ tn ∧ db = ev.database_name := by
  rw [intakeCalls] at hmem
  rcases List.mem_cons.1 hmem with h | h
  · simp at h
  by_cases hempty : invs.isEmpty
  · rw [if_pos hempty] at h
    simp at h
  rw [if_neg hempty] at h
  rcases List.mem_append.1 h with h1 | h1
  · rw [intakeAcceptCalls] at h1
    rcases List.mem_map.1 h1 with ⟨inv, -, he⟩
    simp at he
  · rw [intakeLinkCalls] at h1
    cases hin : shareAcceptedInput accept ev invs with
    | nil =>
        rw [hin] at h1
        simp at h1
    | cons r rest =>
        rw [hin] at h1
        cases r with
        | emptyObj => simp at h1
        | accepted ctx s =>
            rcases gate_head_from_invitation accept ev invs ctx s rest hin with
              ⟨-, inv, -, hctx, -⟩
            simp only at h1
            by_cases hs : (s == "ACCEPTED") = true
            · rw [if_pos hs] at h1
              rcases List.mem_map.1 h1 with ⟨t, ht, he⟩
              simp only [IntakeCall.createResourceLink.injEq] at he
              subst hctx
              simp only [mkRamCtx] at ht he
              refine ⟨?_, ?_, ?_, ?_, ?_⟩
              · exact he.2.2.2.2 ▸ ht
              · rw [← he.2.2.1, hacct]
              · rw [← he.2.2.2.1]
              · rw [← he.2.1, he.2.2.2.2]
              · rw [← he.1]
            · rw [if_neg hs] at h1
              simp at h1

/-- Witness for C7 at the concrete event. -/
theorem intake_links_target_central_catalog_witness :
    IntakeCall.createResourceLink "retaildb" "rl-t1" "111122223333"
        "111122223333_retaildb" "t1"
      ∈ intakeCalls "111122223333" cexAccept cexIntakeEvent [cexPendingInv]
  ∧ ("t1" ∈ cexIntakeEvent.table_names
      ∧ "111122223333" = cexIntakeEvent.account
      ∧ "111122223333_retaildb"
          = cexIntakeEvent.account ++ "_" ++ cexIntakeEvent.database_name
      ∧ "rl-t1" = "rl-" ++ "t1" ∧ "retaildb" = cexIntakeEvent.database_name) :=
  ⟨by decide,
   intake_links_target_central_catalog "111122223333" cexAccept cexIntakeEvent
     [cexPendingInv] rfl "retaildb" "rl-t1" "111122223333" "111122223333_retaildb" "t1"
     (by decide)⟩

/-- C10: the `shareAccepted` gate filters the fan-out results to those
carrying `central_account_id` before inspecting index 0, so the empty
objects of non-matching branches are discarded; hence for an invitation
list containing exactly one matching pending invitation — at any
position, not only the first — whose acceptance returns `ACCEPTED`, the
gate sees exactly that invitation's result and the workflow creates the
resource links for every table of the event. -/
theorem intake_single_pending_any_position (cA : String) (accept : String → String)
    (ev : IntakeEvent) (pre post : List RamInvitation) (inv : RamInvitation)
    (hpre : ∀ i ∈ pre, isInvitationPending ev.account i = false)
    (hpost : ∀ i ∈ post, isInvitationPending ev.account i = false)
    (hinv : isInvitationPending ev.account inv = true)
    (hacc : accept inv.arn = "ACCEPTED") :
    shareAcceptedInput accept ev (pre ++ inv :: post)
      = [RamBranchResult.accepted (mkRamCtx ev inv) "ACCEPTED"]
  ∧ intakeLinkCalls cA accept ev (pre ++ inv :: post)
      = ev.table_names.map (fun t =>
          IntakeCall.createResourceLink ev.database_name ("rl-" ++ t) cA
            (ev.account ++ "_" ++ ev.database_name) t) := by
  have hprefilter :
      (pre.map (ramBranch accept ev)).filter hasCentralAccountId = [] := by
    refine List.filter_eq_nil_iff.2 (fun r hr => ?_)
    rcases List.mem_map.1 hr with ⟨i, hi, hri⟩
    rw [← hri, ramBranch_not_pending accept ev i (hpre i hi)]
    simp [hasCentralAccountId]
  have hpostfilter :
      (post.map (ramBranch accept ev)).filter hasCentralAccountId = [] := by
    refine List.filter_eq_nil_iff.2 (fun r hr => ?_)
    rcases List.mem_map.1 hr with ⟨i, hi, hri⟩
    rw [← hri, ramBranch_not_pending accept ev i (hpost i hi)]
    simp [hasCentralAccountId]
  have hbranch : ramBranch accept ev inv
      = RamBranchResult.accepted (mkRamCtx ev inv) "ACCEPTED" := by
    rw [ramBranch]
    simp [hinv, hacc]
  have hgate : shareAcceptedInput accept ev (pre ++ inv :: post)
      = [RamBranchResult.accepted (mkRamCtx ev inv) "ACCEPTED"] := by
    rw [shareAcceptedInput, ramMapResults, List.map_append, List.map_cons,
      List.filter_append, hprefilter, List.filter_cons, hbranch]
    simp [hasCentralAccountId, hpostfilter]
  refine ⟨hgate, ?_⟩
  rw [intakeLinkCalls, hgate]
  simp [mkRamCtx]

/-- Witness for C10 with the matching invitation in second position,
after a non-matching one. -/
theorem intake_single_pending_any_position_witness :
    shareAcceptedInput cexAccept cexIntakeEvent [cexOtherInv, cexPendingInv]
      = [RamBranchResult.accepted (mkRamCtx cexIntakeEvent cexPendingInv) "ACCEPTED"]
  ∧ intakeLinkCalls "111122223333" cexAccept cexIntakeEvent [cexOtherInv, cexPendingInv]
      = cexIntakeEvent.table_names.map (fun t =>
          IntakeCall.createResourceLink cexIntakeEvent.database_name ("rl-" ++ t)
            "111122223333"
            (cexIntakeEvent.account ++ "_" ++ cexIntakeEvent.database_name) t) :=
  intake_single_pending_any_position "111122223333" cexAccept cexIntakeEvent
    [cexOtherInv] [] cexPendingInv
    (by decide) (by decide) (by decide) rfl

/-- After processing the completion events in `order`, slot `j` of the
result array holds the output of branch `j` if any completion wrote it,
and the initial value otherwise. -/
theorem assembleFanOut_foldl_getElem (outputs : List String) (order : List Nat)
    (init : List (Option String)) (j : Nat) :
    (order.foldl (fun arr i => arr.set i (some (outputs.getD i ""))) init)[j]?
      = if j ∈ order ∧ j < init.length then some (some (outputs.getD j ""))
        else init[j]? := by
  induction order generalizing init with
  | nil => simp
  | cons i rest ih =>
      rw [List.foldl_cons, ih, List.length_set]
      by_cases hjl : j < init.length
      · by_cases hjr : j ∈ rest
        · rw [if_pos ⟨hjr, hjl⟩, if_pos ⟨List.mem_cons_of_mem _ hjr, hjl⟩]
        · by_cases hij : i = j
          · subst hij
            rw [if_neg (fun hc => hjr hc.1), if_pos ⟨List.mem_cons_self _ _, hjl⟩,
              List.getElem?_set_self hjl]
          · have hnotc : j ∉ i :: rest := by
              intro hc
              rcases List.mem_cons.1 hc with he | hm
              · exact hij he.symm
              · exact hjr hm
            rw [if_neg (fun hc => hjr hc.1), if_neg (fun hc => hnotc hc.1),
              List.getElem?_set_ne hij]
      · rw [if_neg (fun hc => hjl hc.2), if_neg (fun hc => hjl hc.2),
          List.getElem?_eq_none (by simpa using Nat.le_of_not_lt hjl),
          List.getElem?_eq_none (Nat.le_of_not_lt hjl)]

/-- If the completion order is a permutation of the branch indices, the
assembled fan-out result array is the branch outputs in item order. -/
theorem assembleFanOut_perm (outputs : List String) (order : List Nat)
    (h : order.Perm (List.range outputs.length)) :
    assembleFanOut outputs order = outputs.map some := by
  refine List.ext_getElem? (fun j => ?_)
  rw [assembleFanOut, assembleFanOut_foldl_getElem, List.length_replicate]
  by_cases hj : j < outputs.length
  · have hmem : j ∈ order := h.mem_iff.2 (List.mem_range.2 hj)
    rw [if_pos ⟨hmem, hj⟩]
    simp [List.getD_eq_getElem?_getD, List.getElem?_eq_getElem hj]
  · rw [if_neg (fun hc => hj (List.mem_range.1 (h.mem_iff.1 hc.1)))]
    rw [List.getElem?_eq_none (by simpa using Nat.le_of_not_lt hj),
      List.getElem?_eq_none (by simpa using Nat.le_of_not_lt hj)]

/-- C5: for a governance input whose table list is `["t1", "t2"]`, the
table-name list carried by the outbound completion event equals
`["t1", "t2"]` for every completion order of the two fan-out branches:
the Map result array is assembled by item index, not by completion
time. -/
theorem gov_outbound_preserves_table_order (ev : GovEvent)
    (regRes dbRes : CallResult) (tblRes : String → CallResult) (order : List Nat)
    (hnames : ev.tables.map GovTable.name = ["t1", "t2"])
    (hperm : order.Perm [0, 1])
    (dt db : String) (tns : List String)
    (hmem : GovCall.putEvent dt db tns ∈ govTrace ev regRes dbRes tblRes order) :
    tns = ["t1", "t2"] := by
  have hflat : govFlattenedNames ev order = ["t1", "t2"] := by
    rw [govFlattenedNames, hnames]
    have hperm2 : order.Perm (List.range (["t1", "t2"] : List String).length) := by
      simpa [List.range_succ] using hperm
    rw [assembleFanOut_perm _ _ hperm2]
    rfl
  rcases govTrace_mem ev regRes dbRes tblRes order _ hmem with h | h | h | h | h | h
  · simp at h
  · simp at h
  · simp at h
  · simp at h
  · simp at h
  · rcases govFanOutTrace_mem ev tblRes order _ h with h1 | ⟨u, -, h1⟩ | ⟨u, -, h1⟩ | h1
    · simp at h1
    · simp at h1
    · simp at h1
    · simp only [GovCall.putEvent.injEq] at h1
      rw [h1.2.2, hflat]

/-- Witness for C5 at the concrete event whose tables are t1, t2, with
the branches completing in reverse order. -/
theorem gov_outbound_preserves_table_order_witness :
    govFlattenedNames cexGovEvent [1, 0] = ["t1", "t2"] :=
  gov_outbound_preserves_table_order cexGovEvent CallResult.ok CallResult.ok
    (fun _ => CallResult.ok) [1, 0] (by decide) (by decide)
    "555566667777_createResourceLinks" "retaildb"
    (govFlattenedNames cexGovEvent [1, 0]) (by decide)

/-- Link-creation service reporting `AlreadyExistsException` for every
resource link. -/
def cexLinkAlready : String → String → CallResult := fun _ _ => CallResult.alreadyExists

/-- C3 counterexample: in the Domain Intake workflow, `createResourceLink`
has no catch for `AlreadyExistsException`, so an execution whose only
error is an `AlreadyExistsException` on a resource-link creation fails —
refuting the claim that every catalog object creation step in every
workflow treats an already-exists error as success. -/
theorem intake_already_exists_fails_counterexample :
    cexLinkAlready "retaildb" "rl-t1" = CallResult.alreadyExists
  ∧ IntakeCall.createResourceLink "retaildb" "rl-t1" "111122223333"
      "111122223333_retaildb" "t1"
      ∈ intakeCalls "111122223333" cexAccept cexIntakeEvent [cexPendingInv]
  ∧ intakeSucceeds "111122223333" cexAccept cexIntakeEvent [cexPendingInv]
      cexLinkAlready = false :=
  ⟨rfl, by decide, by decide⟩

/-- C3 amended: an already-exists error is treated as success for
location registration and database creation in the Governance workflow
(both carry an `addCatch` continuing along a designed edge), but not for
resource-link creation in the Domain Intake workflow nor for table
creation in the Governance workflow's fan-out: there an already-exists
error fails the execution. -/
theorem already_exists_handling_amended (gev : GovEvent) (regRes : CallResult)
    (tblRes : String → CallResult) (cA : String) (accept : String → String)
    (iev : IntakeEvent) (invs : List RamInvitation)
    (linkRes : String → String → CallResult)
    (hreg : regRes ≠ CallResult.otherError) :
    (gev.tables.all (fun t => tblRes t.name == CallResult.ok) = true →
      govSucceeds gev CallResult.alreadyExists CallResult.alreadyExists tblRes = true)
  ∧ ((∃ db nm a b t, IntakeCall.createResourceLink db nm a b t
        ∈ intakeCalls cA accept iev invs ∧ linkRes db nm = CallResult.alreadyExists) →
      intakeSucceeds cA accept iev invs linkRes = false)
  ∧ ((∃ t ∈ gev.tables, tblRes t.name = CallResult.alreadyExists) →
      govSucceeds gev regRes CallResult.ok tblRes = false) := by
  refine ⟨?_, ?_, ?_⟩
  · intro htbl
    simp [govSucceeds, htbl]
  · rintro ⟨db, nm, a, b, t, hmem, hres⟩
    rw [intakeSucceeds, Bool.eq_false_iff]
    intro hall
    have hone := List.all_eq_true.1 hall _ hmem
    simp only at hone
    rw [hres] at hone
    exact absurd hone (by simp)
  · rintro ⟨t, ht, hres⟩
    have hall : gev.tables.all (fun u => tblRes u.name == CallResult.ok) = false := by
      rw [Bool.eq_false_iff]
      intro hall
      have hone := List.all_eq_true.1 hall t ht
      rw [hres] at hone
      exact absurd hone (by simp)
    simp [govSucceeds, hall]

/-- Witness for the amended C3 at concrete runs: a governance run where
both registration and database creation report already-exists still
succeeds; an intake run whose link creation reports already-exists
fails; a governance run whose table creation reports already-exists
fails. -/
theorem already_exists_handling_amended_witness :
    govSucceeds cexGovEvent CallResult.alreadyExists CallResult.alreadyExists
      (fun _ => CallResult.ok) = true
  ∧ intakeSucceeds "111122223333" cexAccept cexIntakeEvent [cexPendingInv]
      cexLinkAlready = false
  ∧ govSucceeds cexGovEvent CallResult.ok CallResult.ok
      (fun _ => CallResult.alreadyExists) = false :=
  ⟨(already_exists_handling_amended cexGovEvent CallResult.ok (fun _ => CallResult.ok)
      "111122223333" cexAccept cexIntakeEvent [cexPendingInv] cexLinkAlready
      (by decide)).1 (by decide),
   (already_exists_handling_amended cexGovEvent CallResult.ok (fun _ => CallResult.ok)
      "111122223333" cexAccept cexIntakeEvent [cexPendingInv] cexLinkAlready
      (by decide)).2.1
     ⟨"retaildb", "rl-t1", "111122223333", "111122223333_retaildb", "t1",
       by decide, rfl⟩,
   (already_exists_handling_amended cexGovEvent CallResult.ok
      (fun _ => CallResult.alreadyExists) "111122223333" cexAccept cexIntakeEvent
      [cexPendingInv] cexLinkAlready (by decide)).2.2
     ⟨⟨"t1"⟩, by decide, rfl⟩⟩

end DataMesh
